import Mathlib

/-!
Verification development for the Intelligent-Text-Tagger feedback pipeline.

The definitions below are a shallow embedding of the Python sources:
  - src/collect_feedback.py  (calculate_position_score, calculate_frequency_score,
    simulate_feedback)
  - src/learn_from_feedback.py  (compute_tag_stats, derive_tag_weights)
  - config.py  (TFIDF_WEIGHT, FREQUENCY_WEIGHT, POSITION_WEIGHT,
    APPROVAL_THRESHOLD, LEARNING_WEIGHTS, POSITION_SCORES)

Python strings are modelled as List Char; Python floats as real numbers
(rationals where the code only ever manipulates decimal literals); Python
dicts as association lists.  All text primitives (lower, strip, split,
substring membership, substring count) are modelled after CPython semantics
for ASCII text.
-/

namespace TextTagger

/-- Python str.lower(), character by character (ASCII). -/
def pyLower (s : List Char) : List Char := s.map Char.toLower

/-- The whitespace characters Python str.strip() removes. -/
def pyIsSpace (c : Char) : Bool :=
  c = ' ' || c = '\t' || c = '\n' || c = '\r' || c = '\x0b' || c = '\x0c'

/-- Python str.strip(): drop whitespace from both ends. -/
def pyStrip (s : List Char) : List Char :=
  ((s.dropWhile pyIsSpace).reverse.dropWhile pyIsSpace).reverse

/-- Python str.startswith for the one-character marker used by the code. -/
def startsWithChar (c : Char) : List Char → Bool
  | [] => false
  | x :: _ => x = c

/-- Python str.isupper(): at least one cased character and no lowercase one
(ASCII reading: cased characters are letters). -/
def pyIsUpperStr (s : List Char) : Bool :=
  s.any (fun c => c.isAlpha) && s.all (fun c => !c.isLower)

/-- Python str.split(sep) for a one-character separator: the empty string
splits to a single empty piece, exactly as in CPython. -/
def pySplit (c : Char) : List Char → List (List Char)
  | [] => [[]]
  | x :: xs =>
    if x = c then [] :: pySplit c xs
    else (x :: (pySplit c xs).headI) :: (pySplit c xs).tail

/-- Python substring membership (the `in` operator on strings): the empty
string is a substring of everything. -/
def isSubstrB (sub : List Char) : List Char → Bool
  | [] => sub.isEmpty
  | x :: xs => sub.isPrefixOf (x :: xs) || isSubstrB sub xs

/-- Scanning core of Python str.count for a nonempty pattern: left-to-right,
and after a match the scan resumes past the matched block, so overlapping
occurrences are not counted twice.  The fuel argument is the length of the
scanned list; structural recursion on it keeps the function kernel-reducible. -/
def countFrom (sub : List Char) : ℕ → List Char → ℕ
  | _, [] => 0
  | 0, _ :: _ => 0
  | fuel + 1, x :: xs =>
    if sub.isPrefixOf (x :: xs) then countFrom sub fuel (List.drop (sub.length - 1) xs) + 1
    else countFrom sub fuel xs

/-- Python str.count: non-overlapping substring count; an empty pattern is
counted len + 1 times, as in CPython. -/
def pyCount (sub s : List Char) : ℕ :=
  if sub.isEmpty then s.length + 1 else countFrom sub s.length s

/-! ### config.py -/

/-- config.py: TFIDF_WEIGHT = 0.5. -/
noncomputable def TFIDF_WEIGHT : ℝ := 0.5

/-- config.py: FREQUENCY_WEIGHT = 0.2. -/
noncomputable def FREQUENCY_WEIGHT : ℝ := 0.2

/-- config.py: POSITION_WEIGHT = 0.3. -/
noncomputable def POSITION_WEIGHT : ℝ := 0.3

/-- config.py: APPROVAL_THRESHOLD = 0.35. -/
noncomputable def APPROVAL_THRESHOLD : ℝ := 0.35

/-- Key strings of the two configuration dicts. -/
def titleKey : String := "title"

def headerKey : String := "header"

def firstParagraphKey : String := "first_paragraph"

def bodyKey : String := "body"

def notFoundKey : String := "not_found"

def strongBoostKey : String := "strong_boost"

def mildBoostKey : String := "mild_boost"

def mildPenaltyKey : String := "mild_penalty"

def strongPenaltyKey : String := "strong_penalty"

/-- config.py: POSITION_SCORES dict. -/
def POSITION_SCORES : List (String × ℚ) :=
  [(titleKey, 1.0), (headerKey, 0.8), (firstParagraphKey, 0.6), (bodyKey, 0.4),
    (notFoundKey, 0.0)]

/-- Dict access POSITION_SCORES[k]. -/
def posScoreOf (k : String) : ℚ := (POSITION_SCORES.lookup k).getD 0

/-- config.py: LEARNING_WEIGHTS dict of (approval-rate lower bound, weight). -/
def LEARNING_WEIGHTS : List (String × ℚ × ℚ) :=
  [(strongBoostKey, (0.80, 1.3)), (mildBoostKey, (0.50, 1.1)),
    (mildPenaltyKey, (0.20, 0.9)), (strongPenaltyKey, (0.00, 0.5))]

/-- Dict access LEARNING_WEIGHTS[k]. -/
def learningRule (k : String) : ℚ × ℚ := (LEARNING_WEIGHTS.lookup k).getD (0, 1)

/-! ### collect_feedback.py -/

/-- Body of the header-scanning loop of calculate_position_score: the line
matches when the lowered-and-stripped line contains the lowered tag and the
line looks like a header (markdown marker, short all-caps line, or a short
line containing a colon). -/
def headerLineHit (tagL line : List Char) : Bool :=
  isSubstrB tagL (pyStrip (pyLower line)) &&
    (startsWithChar '#' (pyStrip line) ||
      (pyIsUpperStr (pyStrip line) && decide ((pyStrip line).length < 50)) ||
      (decide ((pyStrip line).length < 30) && line.contains ':'))

/-- The first-paragraph scan of calculate_position_score: the first line that
is nonempty after stripping, does not start with a header marker, and is
longer than 20 characters; the Python code stores it lowered (and keeps the
empty string when no line qualifies). -/
def firstParagraphOf (lines : List (List Char)) : List Char :=
  match lines.find? (fun line =>
      !(pyStrip line).isEmpty && !startsWithChar '#' (pyStrip line) &&
        decide ((pyStrip line).length > 20)) with
  | some line => pyLower line
  | none => []

/-- collect_feedback.py: calculate_position_score(tag, raw_text).  Zones are
checked in priority order: title (first line), headers (first 10 lines),
first paragraph, body, not found. -/
def calculate_position_score (tag raw_text : List Char) : ℚ :=
  let lines := pySplit '\n' raw_text
  let tagL := pyLower tag
  if !lines.isEmpty && isSubstrB tagL (pyLower lines.headI) then posScoreOf titleKey
  else if (lines.take 10).any (fun line => headerLineHit tagL line) then posScoreOf headerKey
  else
    let fp := firstParagraphOf lines
    if !fp.isEmpty && isSubstrB tagL fp then posScoreOf firstParagraphKey
    else if isSubstrB tagL (pyLower raw_text) then posScoreOf bodyKey
    else posScoreOf notFoundKey

/-- The frequency curve of calculate_frequency_score as a function of the
occurrence count: 0 at count 0, otherwise min(1, ln(count + 1) / ln 10). -/
noncomputable def freqOfCount (count : ℕ) : ℝ :=
  if count = 0 then 0 else min 1 (Real.log (count + 1) / Real.log 10)

/-- collect_feedback.py: calculate_frequency_score(tag, cleaned_text); the
count is cleaned_text.count(tag.lower()). -/
noncomputable def calculate_frequency_score (tag cleaned_text : List Char) : ℝ :=
  freqOfCount (pyCount (pyLower tag) cleaned_text)

/-- Python round(x, 4) modelled over the reals: scale by 10^n, round to the
nearest integer, scale back. -/
noncomputable def roundPy (x : ℝ) (ndigits : ℕ) : ℝ :=
  (round (x * 10 ^ ndigits) : ℤ) / 10 ^ ndigits

/-- One entry of the feedback list produced by simulate_feedback. -/
structure FeedbackEntry where
  tag : List Char
  status : String
  relevance_score : ℝ

/-- Per-tag body of the inner loop of simulate_feedback: weighted combination
of the three signals, threshold decision, rounded relevance score. -/
noncomputable def simulate_feedback_step (tag : List Char) (tfidf_score : ℝ)
    (raw_text cleaned_text : List Char) : FeedbackEntry :=
  let freq_score := calculate_frequency_score tag cleaned_text
  let pos_score := calculate_position_score tag raw_text
  let combined_score :=
    TFIDF_WEIGHT * tfidf_score + FREQUENCY_WEIGHT * freq_score +
      POSITION_WEIGHT * (pos_score : ℝ)
  { tag := tag
    status := if combined_score ≥ APPROVAL_THRESHOLD then "approved" else "rejected"
    relevance_score := roundPy combined_score 4 }

/-- One tag record of tags.json. -/
structure TagEntry where
  tag : List Char
  tfidf_score : ℝ

/-- One document record of tags.json. -/
structure TagsItem where
  filename : List Char
  tags : List TagEntry

/-- One document record of feedback.json as produced by simulate_feedback. -/
structure FeedbackOut where
  filename : List Char
  feedback : List FeedbackEntry

/-- collect_feedback.py: simulate_feedback(tags_data, docs_texts).  The text
normalisation clean_text is an external collaborator (NLTK); it is passed in
as a function parameter.  A missing document falls back to the empty string,
as docs_texts.get(filename, "") does. -/
noncomputable def simulate_feedback (clean_text : List Char → List Char)
    (tags_data : List TagsItem) (docs_texts : List (List Char × List Char)) :
    List FeedbackOut :=
  tags_data.map (fun item =>
    let raw_text := (docs_texts.lookup item.filename).getD []
    let cleaned_text := clean_text raw_text
    { filename := item.filename
      feedback := item.tags.map (fun td =>
        simulate_feedback_step td.tag td.tfidf_score raw_text cleaned_text) })

/-! ### learn_from_feedback.py -/

/-- One feedback record as consumed by compute_tag_stats (well-formed: both
required fields present). -/
structure FBRecord where
  tag : List Char
  status : String
deriving DecidableEq

/-- One document item of feedback.json as consumed by compute_tag_stats. -/
structure FBItem where
  filename : List Char
  feedback : List FBRecord
deriving DecidableEq

/-- The status test of compute_tag_stats: anything other than approved counts
as rejected. -/
def recordApproved (f : FBRecord) : Bool := f.status == "approved"

/-- One defaultdict update of compute_tag_stats: bump the (approved, rejected)
counters of the given key, creating the entry at the end on first sight
(insertion order, as for a Python dict). -/
def bumpStats : List (List Char × ℕ × ℕ) → List Char → Bool → List (List Char × ℕ × ℕ)
  | [], t, ap => [(t, if ap then (1, 0) else (0, 1))]
  | (t', c) :: rest, t, ap =>
    if t' = t then (t', if ap then (c.1 + 1, c.2) else (c.1, c.2 + 1)) :: rest
    else (t', c) :: bumpStats rest t ap

/-- The record loop of compute_tag_stats over one list of records. -/
def statsOfRecords (recs : List FBRecord) (s : List (List Char × ℕ × ℕ)) :
    List (List Char × ℕ × ℕ) :=
  recs.foldl (fun s f => bumpStats s (pyLower f.tag) (recordApproved f)) s

/-- The rate computation of compute_tag_stats: approved / total, guarded by
total > 0 exactly as in the source. -/
def rateOfCounts (c : ℕ × ℕ) : ℚ :=
  if c.1 + c.2 > 0 then (c.1 : ℚ) / ((c.1 : ℚ) + (c.2 : ℚ)) else 0

/-- learn_from_feedback.py: compute_tag_stats(feedback_data): aggregate
approved/rejected counters per lowered tag, then map each entry to its
approval rate. -/
def compute_tag_stats (feedback_data : List FBItem) : List (List Char × ℚ) :=
  let stats := feedback_data.foldl (fun s item => statsOfRecords item.feedback s) []
  stats.map (fun e => (e.1, rateOfCounts e.2))

/-- learn_from_feedback.py: derive_tag_weights(tag_rates): ordered threshold
rules from LEARNING_WEIGHTS, highest first. -/
def derive_tag_weights (tag_rates : List (List Char × ℚ)) : List (List Char × ℚ) :=
  tag_rates.map (fun p =>
    if p.2 ≥ (learningRule strongBoostKey).1 then (p.1, (learningRule strongBoostKey).2)
    else if p.2 ≥ (learningRule mildBoostKey).1 then (p.1, (learningRule mildBoostKey).2)
    else if p.2 ≥ (learningRule mildPenaltyKey).1 then (p.1, (learningRule mildPenaltyKey).2)
    else (p.1, (learningRule strongPenaltyKey).2))

/-! ### A checked variant of compute_tag_stats for malformed records

The Python loop reads f["tag"] and f["status"] unconditionally; a record in
which either key is missing raises KeyError.  The variant below models the
records as partial dicts and the KeyError as an Except error. -/

/-- A raw feedback record whose required fields may be absent. -/
structure RawFBRecord where
  tagField : Option (List Char)
  statusField : Option String
deriving DecidableEq

/-- A raw document item of feedback.json. -/
structure RawFBItem where
  filename : List Char
  feedback : List RawFBRecord
deriving DecidableEq

/-- Python dict access d[k]: the value, or KeyError when absent. -/
def keyGet : Option α → Except Unit α
  | some a => Except.ok a
  | none => Except.error ()

/-- One record step of the checked aggregation: read both required fields
(KeyError when absent), then bump the counters as compute_tag_stats does. -/
def checkedStep (s : List (List Char × ℕ × ℕ)) (f : RawFBRecord) :
    Except Unit (List (List Char × ℕ × ℕ)) := do
  let tag ← keyGet f.tagField
  let status ← keyGet f.statusField
  pure (bumpStats s (pyLower tag) (status == "approved"))

/-- compute_tag_stats over raw records, with the KeyError of a missing field
modelled as Except.error. -/
def compute_tag_stats_checked (feedback_data : List RawFBItem) :
    Except Unit (List (List Char × ℚ)) := do
  let stats ← feedback_data.foldlM (fun s item =>
    item.feedback.foldlM checkedStep s) []
  pure (stats.map (fun e => (e.1, rateOfCounts e.2)))

/-! ### Measures used to state the aggregation claims -/

/-- All feedback records of a collection, in order. -/
def flatRecs (feedback_data : List FBItem) : List FBRecord :=
  (feedback_data.map FBItem.feedback).flatten

/-- Number of records whose lowered tag is t. -/
def countTagged (recs : List FBRecord) (t : List Char) : ℕ :=
  recs.countP (fun f => pyLower f.tag == t)

/-- Number of approved records whose lowered tag is t. -/
def countApproved (recs : List FBRecord) (t : List Char) : ℕ :=
  recs.countP (fun f => (pyLower f.tag == t) && recordApproved f)

/-- Number of rejected records whose lowered tag is t. -/
def countRejected (recs : List FBRecord) (t : List Char) : ℕ :=
  recs.countP (fun f => (pyLower f.tag == t) && !recordApproved f)

/-- The counters stored for key t (0, 0) when the key is absent. -/
def statLookup (s : List (List Char × ℕ × ℕ)) (t : List Char) : ℕ × ℕ :=
  match s.find? (fun e => e.1 == t) with
  | some e => e.2
  | none => (0, 0)

/-! ### Concrete fixtures used by counterexamples and witnesses -/

/-- The tag string used in the spec examples. -/
def exTagX : List Char := "x".toList

/-- A short lowercase tag. -/
def exTagApi : List Char := "api".toList

/-- A one-character tag. -/
def exTagA : List Char := "a".toList

/-- The overlapping-count tag of the spec example. -/
def exTagAa : List Char := "aa".toList

/-- A two-character tag occurring mid-word. -/
def exTagAb : List Char := "ab".toList

/-- The overlapping-count text of the spec example. -/
def exTextAaa : List Char := "aaa".toList

/-- A text containing the tag ab as a partial word. -/
def exTextCab : List Char := "cab".toList

/-- A raw text whose first line contains the tag api. -/
def exTitleRaw : List Char := "api docs\nbody text".toList

/-- A raw text not containing the tag zz. -/
def exOtherRaw : List Char := "something else".toList

/-- The tag absent from exOtherRaw. -/
def exTagZz : List Char := "zz".toList

/-- A text with nine occurrences of the letter a. -/
def exCountText : List Char := List.replicate 9 'a'

/-- A feedback collection with one well-formed and one malformed record (the
second record misses the tag field). -/
def fbWithMalformed : List RawFBItem :=
  [{ filename := "doc1".toList
     feedback := [{ tagField := some exTagApi, statusField := some "approved" },
                  { tagField := none, statusField := some "approved" }] }]

/-- A feedback collection with one record missing the status field. -/
def fbMissingStatus : List RawFBItem :=
  [{ filename := "doc2".toList
     feedback := [{ tagField := some exTagApi, statusField := none }] }]

/-- A small well-formed feedback collection. -/
def fbSmall : List FBItem :=
  [{ filename := "doc1".toList
     feedback := [{ tag := exTagApi, status := "approved" }] }]

/-- The raw-record version of fbSmall, with all required fields present. -/
def fbWellFormedOnly : List RawFBItem :=
  [{ filename := "doc1".toList
     feedback := [{ tagField := some exTagApi, statusField := some "approved" }] }]

/-! ## Facts about the string primitives -/

theorem isSubstrB_eq_true_iff (sub : List Char) (l : List Char) :
    isSubstrB sub l = true ↔ sub <:+: l := by
  induction l with
  | nil => simp [isSubstrB, List.isEmpty_iff, List.infix_nil]
  | cons x xs ih =>
    simp only [isSubstrB, Bool.or_eq_true, ih, List.isPrefixOf_iff_prefix]
    rw [List.infix_cons_iff]

theorem isSubstrB_eq_false_of (sub l : List Char) (h : ¬ sub <:+: l) :
    isSubstrB sub l = false := by
  rw [← Bool.not_eq_true, isSubstrB_eq_true_iff]
  exact h

theorem isSubstrB_nil_right (sub : List Char) (h : sub ≠ []) :
    isSubstrB sub [] = false := by
  cases sub with
  | nil => exact absurd rfl h
  | cons a s => rfl

theorem pyLower_mono (s t : List Char) (h : s <:+: t) : pyLower s <:+: pyLower t :=
  h.map Char.toLower

theorem pyLower_ne_nil (s : List Char) (h : s ≠ []) : pyLower s ≠ [] := by
  cases s with
  | nil => exact absurd rfl h
  | cons a t => simp [pyLower]

theorem pyStrip_sub_self (l : List Char) : pyStrip l <:+: l := by
  have h1 : l.dropWhile pyIsSpace <:+ l := List.dropWhile_suffix pyIsSpace
  have h2 : pyStrip l <+: l.dropWhile pyIsSpace := by
    have h3 := List.dropWhile_suffix (l := (l.dropWhile pyIsSpace).reverse) pyIsSpace
    have h4 := List.reverse_prefix.mpr h3
    simpa [pyStrip] using h4
  exact List.infix_iff_prefix_suffix.mpr ⟨_, h2, h1⟩

theorem pySplit_ne_nil (c : Char) (l : List Char) : pySplit c l ≠ [] := by
  cases l with
  | nil => simp [pySplit]
  | cons x xs =>
    simp only [pySplit]
    split <;> simp

theorem pySplit_headI_prefix_self (c : Char) (l : List Char) :
    (pySplit c l).headI <+: l := by
  induction l with
  | nil => simp [pySplit]
  | cons x xs ih =>
    by_cases h : x = c
    · simp [pySplit, h]
    · have hpre : x :: (pySplit c xs).headI <+: x :: xs :=
        List.cons_prefix_cons.mpr ⟨rfl, ih⟩
      simpa [pySplit, h, List.headI] using hpre

theorem mem_pySplit_infix_self (c : Char) (l : List Char) :
    ∀ p ∈ pySplit c l, p <:+: l := by
  induction l with
  | nil =>
    intro p hp
    simp [pySplit] at hp
    simp [hp]
  | cons x xs ih =>
    intro p hp
    by_cases h : x = c
    · simp only [pySplit, if_pos h, List.mem_cons] at hp
      rcases hp with rfl | hp
      · exact List.nil_infix
      · exact List.infix_cons (ih p hp)
    · simp only [pySplit, if_neg h, List.mem_cons] at hp
      rcases hp with rfl | hp
      · have hpre : x :: (pySplit c xs).headI <+: x :: xs :=
          List.cons_prefix_cons.mpr ⟨rfl, pySplit_headI_prefix_self c xs⟩
        exact List.infix_iff_prefix_suffix.mpr ⟨_, hpre, List.suffix_refl _⟩
      · have hmem : p ∈ pySplit c xs := List.tail_subset _ hp
        exact List.infix_cons (ih p hmem)

/-! ## Facts about the Python substring count -/

theorem countFrom_stable (sub : List Char) :
    ∀ (f g : ℕ) (s : List Char), s.length ≤ f → s.length ≤ g →
      countFrom sub f s = countFrom sub g s := by
  intro f
  induction f with
  | zero =>
    intro g s hf hg
    cases s with
    | nil => cases g <;> rfl
    | cons x xs => simp at hf
  | succ f ihf =>
    intro g s hf hg
    cases s with
    | nil => cases g <;> rfl
    | cons x xs =>
      cases g with
      | zero => simp at hg
      | succ g =>
        simp only [countFrom]
        have hxf : xs.length ≤ f := by simp [List.length_cons] at hf; omega
        have hxg : xs.length ≤ g := by simp [List.length_cons] at hg; omega
        split
        · have hd : (List.drop (sub.length - 1) xs).length ≤ f := by
            simp [List.length_drop]; omega
          have hd2 : (List.drop (sub.length - 1) xs).length ≤ g := by
            simp [List.length_drop]; omega
          rw [ihf g _ hd hd2]
        · exact ihf g xs hxf hxg

theorem countFrom_pos_iff (sub : List Char) (hs : sub ≠ []) :
    ∀ (f : ℕ) (s : List Char), s.length ≤ f →
      (0 < countFrom sub f s ↔ sub <:+: s) := by
  intro f
  induction f with
  | zero =>
    intro s hf
    cases s with
    | nil => simp [countFrom, List.infix_nil, hs]
    | cons x xs => simp at hf
  | succ f ihf =>
    intro s hf
    cases s with
    | nil => simp [countFrom, List.infix_nil, hs]
    | cons x xs =>
      have hxf : xs.length ≤ f := by simp [List.length_cons] at hf; omega
      simp only [countFrom]
      rw [List.infix_cons_iff]
      by_cases hp : sub.isPrefixOf (x :: xs) = true
      · rw [if_pos hp]
        simp only [Nat.zero_lt_succ, true_iff]
        exact Or.inl (List.isPrefixOf_iff_prefix.mp hp)
      · rw [if_neg hp]
        rw [ihf xs hxf]
        constructor
        · exact Or.inr
        · rintro (hpre | hinf)
          · exact absurd (List.isPrefixOf_iff_prefix.mpr hpre) hp
          · exact hinf

theorem countFrom_mul_le (sub : List Char) (hs : sub ≠ []) :
    ∀ (f : ℕ) (s : List Char), s.length ≤ f →
      countFrom sub f s * sub.length ≤ s.length := by
  intro f
  induction f with
  | zero =>
    intro s hf
    cases s with
    | nil => simp [countFrom]
    | cons x xs => simp at hf
  | succ f ihf =>
    intro s hf
    cases s with
    | nil => simp [countFrom]
    | cons x xs =>
      have hxf : xs.length ≤ f := by simp [List.length_cons] at hf; omega
      simp only [countFrom]
      by_cases hp : sub.isPrefixOf (x :: xs) = true
      · rw [if_pos hp]
        have hpre := List.isPrefixOf_iff_prefix.mp hp
        have hlen : sub.length ≤ xs.length + 1 := by
          simpa using hpre.length_le
        have hd : (List.drop (sub.length - 1) xs).length ≤ f := by
          simp [List.length_drop]; omega
        have hrec := ihf (List.drop (sub.length - 1) xs) hd
        simp only [List.length_drop] at hrec
        have hk : 1 ≤ sub.length := by
          cases sub with
          | nil => exact absurd rfl hs
          | cons a t => simp
        simp only [List.length_cons]
        rw [Nat.succ_mul]
        omega
      · rw [if_neg hp]
        have := ihf xs hxf
        simp only [List.length_cons]
        omega

theorem pyCount_pos_iff (sub s : List Char) (hs : sub ≠ []) :
    0 < pyCount sub s ↔ sub <:+: s := by
  have he : sub.isEmpty = false := by cases sub with
    | nil => exact absurd rfl hs
    | cons a t => rfl
  rw [pyCount, if_neg (by simp [he])]
  exact countFrom_pos_iff sub hs s.length s le_rfl

theorem pyCount_mul_length_le (sub s : List Char) (hs : sub ≠ []) :
    pyCount sub s * sub.length ≤ s.length := by
  have he : sub.isEmpty = false := by cases sub with
    | nil => exact absurd rfl hs
    | cons a t => rfl
  rw [pyCount, if_neg (by simp [he])]
  exact countFrom_mul_le sub hs s.length s le_rfl

theorem pyCount_nil_right (sub : List Char) (hs : sub ≠ []) : pyCount sub [] = 0 := by
  have he : sub.isEmpty = false := by cases sub with
    | nil => exact absurd rfl hs
    | cons a t => rfl
  rw [pyCount, if_neg (by simp [he])]
  rfl

/-! ## Facts about the frequency curve -/

theorem freqOfCount_zero : freqOfCount 0 = 0 := by simp [freqOfCount]

theorem freqOfCount_nonneg (c : ℕ) : 0 ≤ freqOfCount c := by
  unfold freqOfCount
  split
  · exact le_refl 0
  · refine le_min (by norm_num) (div_nonneg ?_ ?_)
    · refine Real.log_nonneg ?_
      have : (0:ℝ) ≤ (c : ℝ) := Nat.cast_nonneg c
      linarith
    · exact Real.log_nonneg (by norm_num)

theorem freqOfCount_le_one (c : ℕ) : freqOfCount c ≤ 1 := by
  unfold freqOfCount
  split
  · norm_num
  · exact min_le_left _ _

theorem freqOfCount_eq_zero_iff (c : ℕ) : freqOfCount c = 0 ↔ c = 0 := by
  unfold freqOfCount
  split
  · simp_all
  · rename_i hc
    have h1 : (1:ℝ) < (c : ℝ) + 1 := by
      have : 1 ≤ c := Nat.one_le_iff_ne_zero.mpr hc
      have : (1:ℝ) ≤ (c : ℝ) := by exact_mod_cast this
      linarith
    have hpos : 0 < min 1 (Real.log ((c:ℝ) + 1) / Real.log 10) :=
      lt_min one_pos (div_pos (Real.log_pos h1) (Real.log_pos (by norm_num)))
    simp [hc]
    linarith

theorem freqOfCount_mono : Monotone freqOfCount := by
  intro a b hab
  by_cases ha : a = 0
  · rw [ha, freqOfCount_zero]
    exact freqOfCount_nonneg b
  · have hb : b ≠ 0 := by omega
    unfold freqOfCount
    rw [if_neg ha, if_neg hb]
    refine min_le_min le_rfl ?_
    have hcast : (a:ℝ) + 1 ≤ (b:ℝ) + 1 := by
      have : (a:ℝ) ≤ (b:ℝ) := by exact_mod_cast hab
      linarith
    have hloga : Real.log ((a:ℝ) + 1) ≤ Real.log ((b:ℝ) + 1) :=
      Real.log_le_log (by positivity) hcast
    have hpos : 0 < Real.log 10 := Real.log_pos (by norm_num)
    gcongr

theorem freqOfCount_saturates (c : ℕ) (h : 9 ≤ c) : freqOfCount c = 1 := by
  unfold freqOfCount
  rw [if_neg (by omega)]
  have h10 : (10:ℝ) ≤ (c:ℝ) + 1 := by
    have : (9:ℝ) ≤ (c:ℝ) := by exact_mod_cast h
    linarith
  have hlog : Real.log 10 ≤ Real.log ((c:ℝ) + 1) :=
    Real.log_le_log (by norm_num) h10
  have hpos : 0 < Real.log 10 := Real.log_pos (by norm_num)
  exact min_eq_left ((le_div_iff₀ hpos).mpr (by linarith))

/-! ## Facts about the position scorer -/

theorem posScoreOf_title : posScoreOf titleKey = 1 := by
  have h1 : (titleKey == titleKey) = true := by decide
  norm_num [posScoreOf, POSITION_SCORES, List.lookup, h1]

theorem posScoreOf_header : posScoreOf headerKey = 0.8 := by
  have h1 : (headerKey == titleKey) = false := by decide
  have h2 : (headerKey == headerKey) = true := by decide
  norm_num [posScoreOf, POSITION_SCORES, List.lookup, h1, h2]

theorem posScoreOf_firstParagraph : posScoreOf firstParagraphKey = 0.6 := by
  have h1 : (firstParagraphKey == titleKey) = false := by decide
  have h2 : (firstParagraphKey == headerKey) = false := by decide
  have h3 : (firstParagraphKey == firstParagraphKey) = true := by decide
  norm_num [posScoreOf, POSITION_SCORES, List.lookup, h1, h2, h3]

theorem posScoreOf_body : posScoreOf bodyKey = 0.4 := by
  have h1 : (bodyKey == titleKey) = false := by decide
  have h2 : (bodyKey == headerKey) = false := by decide
  have h3 : (bodyKey == firstParagraphKey) = false := by decide
  have h4 : (bodyKey == bodyKey) = true := by decide
  norm_num [posScoreOf, POSITION_SCORES, List.lookup, h1, h2, h3, h4]

theorem posScoreOf_notFound : posScoreOf notFoundKey = 0 := by
  have h1 : (notFoundKey == titleKey) = false := by decide
  have h2 : (notFoundKey == headerKey) = false := by decide
  have h3 : (notFoundKey == firstParagraphKey) = false := by decide
  have h4 : (notFoundKey == bodyKey) = false := by decide
  have h5 : (notFoundKey == notFoundKey) = true := by decide
  norm_num [posScoreOf, POSITION_SCORES, List.lookup, h1, h2, h3, h4, h5]

theorem calculate_position_score_cases (tag raw : List Char) :
    calculate_position_score tag raw = 1 ∨ calculate_position_score tag raw = 0.8 ∨
    calculate_position_score tag raw = 0.6 ∨ calculate_position_score tag raw = 0.4 ∨
    calculate_position_score tag raw = 0 := by
  simp only [calculate_position_score]
  split_ifs <;>
    simp [posScoreOf_title, posScoreOf_header, posScoreOf_firstParagraph,
      posScoreOf_body, posScoreOf_notFound]

theorem calculate_position_score_bounds (tag raw : List Char) :
    0 ≤ calculate_position_score tag raw ∧ calculate_position_score tag raw ≤ 1 := by
  rcases calculate_position_score_cases tag raw with h | h | h | h | h <;>
    rw [h] <;> norm_num

theorem calculate_position_score_title (tag raw : List Char)
    (h : tag <:+: (pySplit '\n' raw).headI) :
    calculate_position_score tag raw = 1 := by
  have hsub : isSubstrB (pyLower tag) (pyLower (pySplit '\n' raw).headI) = true :=
    (isSubstrB_eq_true_iff _ _).mpr (pyLower_mono _ _ h)
  have hne : (pySplit '\n' raw).isEmpty = false := by
    simp [List.isEmpty_iff, pySplit_ne_nil]
  simp only [calculate_position_score]
  rw [if_pos (by simp [hne, hsub])]
  exact posScoreOf_title

theorem calculate_position_score_absent (tag raw : List Char)
    (h : ¬ pyLower tag <:+: pyLower raw) :
    calculate_position_score tag raw = 0 := by
  have hline : ∀ l, l <:+: raw → isSubstrB (pyLower tag) (pyLower l) = false := by
    intro l hl
    refine isSubstrB_eq_false_of _ _ ?_
    intro hc
    exact h (hc.trans (pyLower_mono _ _ hl))
  have hstrip : ∀ l, l <:+: raw →
      isSubstrB (pyLower tag) (pyStrip (pyLower l)) = false := by
    intro l hl
    refine isSubstrB_eq_false_of _ _ ?_
    intro hc
    exact h ((hc.trans (pyStrip_sub_self _)).trans (pyLower_mono _ _ hl))
  have h1 : isSubstrB (pyLower tag) (pyLower (pySplit '\n' raw).headI) = false := by
    refine hline _ ?_
    exact List.infix_iff_prefix_suffix.mpr
      ⟨_, pySplit_headI_prefix_self '\n' raw, List.suffix_refl _⟩
  have h2 : ((pySplit '\n' raw).take 10).any
      (fun line => headerLineHit (pyLower tag) line) = false := by
    simp only [List.any_eq_false]
    intro line hmem
    have hinf : line <:+: raw :=
      mem_pySplit_infix_self '\n' raw line (List.take_subset _ _ hmem)
    simp [headerLineHit, hstrip line hinf]
  have h3 : isSubstrB (pyLower tag) (firstParagraphOf (pySplit '\n' raw)) = false := by
    unfold firstParagraphOf
    cases hf : (pySplit '\n' raw).find? (fun line =>
        !(pyStrip line).isEmpty && !startsWithChar '#' (pyStrip line) &&
          decide ((pyStrip line).length > 20)) with
    | none =>
      cases htag : pyLower tag with
      | nil =>
        exfalso
        exact h (htag ▸ List.nil_infix)
      | cons a t => rfl
    | some line =>
      have hmem : line ∈ pySplit '\n' raw := List.mem_of_find?_eq_some hf
      exact hline line (mem_pySplit_infix_self '\n' raw line hmem)
  have h4 : isSubstrB (pyLower tag) (pyLower raw) = false :=
    hline raw (List.infix_refl raw)
  simp only [calculate_position_score]
  rw [if_neg (by simp [h1]), if_neg (by simp [h2]), if_neg (by simp [h3]),
    if_neg (by simp [h4])]
  exact posScoreOf_notFound

theorem calculate_position_score_nil (tag : List Char) (h : tag ≠ []) :
    calculate_position_score tag [] = 0 := by
  apply calculate_position_score_absent
  simpa [pyLower, List.infix_nil] using h

theorem calculate_frequency_score_nil (tag : List Char) (h : tag ≠ []) :
    calculate_frequency_score tag [] = 0 := by
  unfold calculate_frequency_score
  rw [pyCount_nil_right _ (pyLower_ne_nil tag h), freqOfCount_zero]

/-! ## Facts about the rounding step -/

theorem round_le_round_of_le (x y : ℝ) (h : x ≤ y) : round x ≤ round y := by
  rw [round_eq, round_eq]
  exact Int.floor_le_floor (by linarith)

theorem roundPy_bounds (x : ℝ) (h0 : 0 ≤ x) (h1 : x ≤ 1) :
    0 ≤ roundPy x 4 ∧ roundPy x 4 ≤ 1 := by
  unfold roundPy
  have hl : (0:ℤ) ≤ round (x * 10 ^ 4) := by
    have hr := round_le_round_of_le 0 (x * 10 ^ 4) (by positivity)
    simpa using hr
  have hu : round (x * 10 ^ 4) ≤ 10 ^ 4 := by
    have hr := round_le_round_of_le (x * 10 ^ 4) (10 ^ 4) (by nlinarith)
    have hten : round ((10:ℝ) ^ 4) = (10 ^ 4 : ℤ) := by norm_num
    rw [hten] at hr
    exact hr
  constructor
  · apply div_nonneg
    · exact_mod_cast hl
    · positivity
  · rw [div_le_one (by positivity)]
    exact_mod_cast hu

/-! ## Facts about the learning rules -/

theorem learningRule_strong_boost : learningRule strongBoostKey = (0.80, 1.3) := by
  have h1 : (strongBoostKey == strongBoostKey) = true := by decide
  norm_num [learningRule, LEARNING_WEIGHTS, List.lookup, h1, Prod.ext_iff]

theorem learningRule_mild_boost : learningRule mildBoostKey = (0.50, 1.1) := by
  have h1 : (mildBoostKey == strongBoostKey) = false := by decide
  have h2 : (mildBoostKey == mildBoostKey) = true := by decide
  norm_num [learningRule, LEARNING_WEIGHTS, List.lookup, h1, h2, Prod.ext_iff]

theorem learningRule_mild_penalty : learningRule mildPenaltyKey = (0.20, 0.9) := by
  have h1 : (mildPenaltyKey == strongBoostKey) = false := by decide
  have h2 : (mildPenaltyKey == mildBoostKey) = false := by decide
  have h3 : (mildPenaltyKey == mildPenaltyKey) = true := by decide
  norm_num [learningRule, LEARNING_WEIGHTS, List.lookup, h1, h2, h3, Prod.ext_iff]

theorem learningRule_strong_penalty : learningRule strongPenaltyKey = (0.00, 0.5) := by
  have h1 : (strongPenaltyKey == strongBoostKey) = false := by decide
  have h2 : (strongPenaltyKey == mildBoostKey) = false := by decide
  have h3 : (strongPenaltyKey == mildPenaltyKey) = false := by decide
  have h4 : (strongPenaltyKey == strongPenaltyKey) = true := by decide
  norm_num [learningRule, LEARNING_WEIGHTS, List.lookup, h1, h2, h3, h4, Prod.ext_iff]

/-! ## Facts about the feedback aggregation -/

theorem statLookup_nil (t : List Char) : statLookup [] t = (0, 0) := rfl

theorem statLookup_bumpStats (s : List (List Char × ℕ × ℕ)) (key : List Char)
    (ap : Bool) (t : List Char) :
    statLookup (bumpStats s key ap) t =
      if key = t then
        ((statLookup s t).1 + (if ap then 1 else 0),
          (statLookup s t).2 + (if ap then 0 else 1))
      else statLookup s t := by
  induction s with
  | nil =>
    by_cases hkt : key = t
    · subst hkt
      cases ap <;> simp [bumpStats, statLookup, List.find?]
    · have hb : (key == t) = false := by simp [hkt]
      cases ap <;> simp [bumpStats, statLookup, List.find?, hkt, hb]
  | cons e rest ih =>
    obtain ⟨t', c⟩ := e
    by_cases h : t' = key
    · subst h
      by_cases hkt : t' = t
      · subst hkt
        cases ap <;> simp [bumpStats, statLookup, List.find?]
      · have hb : (t' == t) = false := by simp [hkt]
        cases ap <;> simp [bumpStats, statLookup, List.find?, hkt, hb]
    · by_cases hts : t' = t
      · subst hts
        have hne : ¬ key = t' := fun hc => h hc.symm
        simp [bumpStats, h, statLookup, List.find?, hne]
      · have hb : (t' == t) = false := by simp [hts]
        simp only [bumpStats, if_neg h]
        have hlhs : statLookup ((t', c) :: bumpStats rest key ap) t =
            statLookup (bumpStats rest key ap) t := by
          simp [statLookup, List.find?, hb]
        have hrhs : statLookup ((t', c) :: rest) t = statLookup rest t := by
          simp [statLookup, List.find?, hb]
        rw [hlhs, hrhs, ih]

theorem keys_bumpStats (s : List (List Char × ℕ × ℕ)) (key : List Char) (ap : Bool) :
    (bumpStats s key ap).map Prod.fst =
      if key ∈ s.map Prod.fst then s.map Prod.fst else s.map Prod.fst ++ [key] := by
  induction s with
  | nil => simp [bumpStats]
  | cons e rest ih =>
    obtain ⟨t', c⟩ := e
    by_cases h : t' = key
    · subst h
      simp [bumpStats]
    · have hne : ¬ key = t' := fun hc => h hc.symm
      by_cases hk : key ∈ rest.map Prod.fst
      · simp [bumpStats, h, ih, hk, hne]
      · simp [bumpStats, h, ih, hk, hne]

theorem keys_nodup_statsOfRecords (recs : List FBRecord) :
    ∀ s, (s.map Prod.fst).Nodup → ((statsOfRecords recs s).map Prod.fst).Nodup := by
  induction recs with
  | nil => intro s h; exact h
  | cons f recs ih =>
    intro s h
    have hstep : statsOfRecords (f :: recs) s =
        statsOfRecords recs (bumpStats s (pyLower f.tag) (recordApproved f)) := rfl
    rw [hstep]
    apply ih
    rw [keys_bumpStats]
    split
    · exact h
    · rename_i hk
      rw [List.nodup_append]
      refine ⟨h, List.nodup_singleton _, ?_⟩
      intro a ha hb
      rw [List.mem_singleton] at hb
      subst hb
      exact hk ha

theorem mem_keys_statsOfRecords (recs : List FBRecord) :
    ∀ s t, t ∈ (statsOfRecords recs s).map Prod.fst ↔
      t ∈ s.map Prod.fst ∨ ∃ f ∈ recs, pyLower f.tag = t := by
  induction recs with
  | nil => intro s t; simp [statsOfRecords]
  | cons f recs ih =>
    intro s t
    have hstep : statsOfRecords (f :: recs) s =
        statsOfRecords recs (bumpStats s (pyLower f.tag) (recordApproved f)) := rfl
    have hsplit : (∃ g ∈ f :: recs, pyLower g.tag = t) ↔
        pyLower f.tag = t ∨ ∃ g ∈ recs, pyLower g.tag = t := by
      constructor
      · rintro ⟨g, hg, hgt⟩
        rw [List.mem_cons] at hg
        rcases hg with rfl | hg
        · exact Or.inl hgt
        · exact Or.inr ⟨g, hg, hgt⟩
      · rintro (hft | ⟨g, hg, hgt⟩)
        · exact ⟨f, List.mem_cons_self f recs, hft⟩
        · exact ⟨g, List.mem_cons_of_mem f hg, hgt⟩
    rw [hstep, ih, keys_bumpStats, hsplit]
    by_cases hk : pyLower f.tag ∈ s.map Prod.fst
    · rw [if_pos hk]
      constructor
      · rintro (hs | he)
        · exact Or.inl hs
        · exact Or.inr (Or.inr he)
      · rintro (hs | hft | he)
        · exact Or.inl hs
        · exact Or.inl (hft ▸ hk)
        · exact Or.inr he
    · rw [if_neg hk, List.mem_append, List.mem_singleton]
      constructor
      · rintro ((hs | hkey) | he)
        · exact Or.inl hs
        · exact Or.inr (Or.inl hkey.symm)
        · exact Or.inr (Or.inr he)
      · rintro (hs | hft | he)
        · exact Or.inl (Or.inl hs)
        · exact Or.inl (Or.inr hft.symm)
        · exact Or.inr he

theorem statLookup_statsOfRecords (recs : List FBRecord) :
    ∀ s t, statLookup (statsOfRecords recs s) t =
      ((statLookup s t).1 + countApproved recs t,
        (statLookup s t).2 + countRejected recs t) := by
  induction recs with
  | nil => intro s t; simp [statsOfRecords, countApproved, countRejected]
  | cons f recs ih =>
    intro s t
    have hstep : statsOfRecords (f :: recs) s =
        statsOfRecords recs (bumpStats s (pyLower f.tag) (recordApproved f)) := rfl
    rw [hstep, ih, statLookup_bumpStats]
    simp only [countApproved, countRejected, List.countP_cons]
    by_cases h : pyLower f.tag = t
    · rw [if_pos h]
      cases hap : recordApproved f <;>
        simp [Prod.ext_iff, h, hap] <;> omega
    · rw [if_neg h]
      have hb : (pyLower f.tag == t) = false := by simp [h]
      simp [Prod.ext_iff, hb]

theorem statLookup_of_mem (s : List (List Char × ℕ × ℕ))
    (h : (s.map Prod.fst).Nodup) (e : List Char × ℕ × ℕ) (he : e ∈ s) :
    statLookup s e.1 = e.2 := by
  induction s with
  | nil => simp at he
  | cons a rest ih =>
    simp only [List.mem_cons] at he
    rcases he with rfl | he
    · simp [statLookup, List.find?]
    · have hmem : e.1 ∈ rest.map Prod.fst := List.mem_map_of_mem Prod.fst he
      simp only [List.map_cons, List.nodup_cons] at h
      have hne : (a.1 == e.1) = false := by
        simp only [beq_eq_false_iff_ne, ne_eq]
        intro hc
        exact h.1 (hc ▸ hmem)
      simp only [statLookup, List.find?, hne]
      exact ih h.2 he

theorem statsOfItems_eq (fb : List FBItem) :
    ∀ s, fb.foldl (fun s item => statsOfRecords item.feedback s) s =
      statsOfRecords (flatRecs fb) s := by
  induction fb with
  | nil => intro s; rfl
  | cons item fb ih =>
    intro s
    simp only [List.foldl_cons]
    rw [ih]
    rw [show flatRecs (item :: fb) = item.feedback ++ flatRecs fb from by
      simp [flatRecs]]
    unfold statsOfRecords
    rw [List.foldl_append]

theorem compute_tag_stats_eq (fb : List FBItem) :
    compute_tag_stats fb =
      (statsOfRecords (flatRecs fb) []).map (fun e => (e.1, rateOfCounts e.2)) := by
  unfold compute_tag_stats
  rw [statsOfItems_eq]

theorem countTagged_pos_iff (recs : List FBRecord) (t : List Char) :
    0 < countTagged recs t ↔ ∃ f ∈ recs, pyLower f.tag = t := by
  unfold countTagged
  rw [List.countP_pos_iff]
  simp

theorem countTagged_eq_approved_add_rejected (recs : List FBRecord) (t : List Char) :
    countTagged recs t = countApproved recs t + countRejected recs t := by
  induction recs with
  | nil => rfl
  | cons f recs ih =>
    simp only [countTagged, countApproved, countRejected, List.countP_cons] at ih ⊢
    by_cases h : (pyLower f.tag == t) = true <;>
      cases hap : recordApproved f <;> simp [h, hap] <;> omega

/-! ## Error propagation through the checked aggregation -/

theorem checkedStep_error (s : List (List Char × ℕ × ℕ)) (f : RawFBRecord)
    (h : f.tagField = none ∨ f.statusField = none) :
    checkedStep s f = Except.error () := by
  rcases h with h | h
  · unfold checkedStep
    rw [h]
    rfl
  · cases ht : f.tagField with
    | none =>
      unfold checkedStep
      rw [ht]
      rfl
    | some tag =>
      unfold checkedStep
      rw [ht, h]
      rfl

theorem records_foldlM_error (recs : List RawFBRecord) :
    ∀ s, (∃ f ∈ recs, f.tagField = none ∨ f.statusField = none) →
      recs.foldlM checkedStep s = Except.error () := by
  induction recs with
  | nil =>
    intro s h
    simp at h
  | cons f recs ih =>
    intro s h
    rw [List.foldlM_cons]
    rcases h with ⟨g, hg, hbad⟩
    rw [List.mem_cons] at hg
    rcases hg with rfl | hg
    · rw [checkedStep_error s g hbad]
      rfl
    · cases hs : checkedStep s f with
      | error e =>
        cases e
        rfl
      | ok s2 =>
        exact ih s2 ⟨g, hg, hbad⟩

theorem items_foldlM_error (fb : List RawFBItem) :
    ∀ s, (∃ item ∈ fb, ∃ f ∈ item.feedback, f.tagField = none ∨ f.statusField = none) →
      fb.foldlM (fun s item => item.feedback.foldlM checkedStep s) s =
        Except.error () := by
  induction fb with
  | nil =>
    intro s h
    simp at h
  | cons item fb ih =>
    intro s h
    rw [List.foldlM_cons]
    rcases h with ⟨it, hit, hbad⟩
    rw [List.mem_cons] at hit
    rcases hit with rfl | hit
    · rw [records_foldlM_error it.feedback s hbad]
      rfl
    · cases hs : item.feedback.foldlM checkedStep s with
      | error e =>
        cases e
        rfl
      | ok s2 =>
        exact ih s2 ⟨it, hit, hbad⟩

/-! ## The claims -/

/-- Claim C1: the Feedback Evaluator per-tag step combines the signals as
0.5·importance + 0.2·frequency + 0.3·position, returns approved exactly when
the combined score reaches 0.35 and rejected otherwise, and stores the
combined score rounded to four decimal places; simulate_feedback applies
this step to every tag of every document. -/
theorem claim_C1_evaluator_formula :
    (∀ (tag : List Char) (imp : ℝ) (raw cleaned : List Char),
      (simulate_feedback_step tag imp raw cleaned).status =
        (if 0.5 * imp + 0.2 * calculate_frequency_score tag cleaned +
            0.3 * (calculate_position_score tag raw : ℝ) ≥ 0.35 then "approved"
          else "rejected") ∧
      (simulate_feedback_step tag imp raw cleaned).relevance_score =
        roundPy (0.5 * imp + 0.2 * calculate_frequency_score tag cleaned +
          0.3 * (calculate_position_score tag raw : ℝ)) 4) ∧
    ∀ (ct : List Char → List Char) (td : List TagsItem)
      (docs : List (List Char × List Char)),
      simulate_feedback ct td docs = td.map (fun item =>
        { filename := item.filename
          feedback := item.tags.map (fun te =>
            simulate_feedback_step te.tag te.tfidf_score
              ((docs.lookup item.filename).getD [])
              (ct ((docs.lookup item.filename).getD []))) }) := by
  constructor
  · intro tag imp raw cleaned
    constructor <;>
      simp [simulate_feedback_step, TFIDF_WEIGHT, FREQUENCY_WEIGHT,
        POSITION_WEIGHT, APPROVAL_THRESHOLD]
  · intro ct td docs
    rfl

/-- Claim C2: derive_tag_weights maps every rate through the ordered
threshold table with inclusive lower bounds (1.3 from 0.80, 1.1 from 0.50,
0.9 from 0.20, otherwise 0.5), matches the four boundary examples, and only
ever outputs the four configured weights. -/
theorem claim_C2_weight_tiers :
    (∀ rates : List (List Char × ℚ),
      derive_tag_weights rates = rates.map (fun p =>
        (p.1, if p.2 ≥ 0.80 then (1.3 : ℚ) else if p.2 ≥ 0.50 then 1.1
          else if p.2 ≥ 0.20 then 0.9 else 0.5))) ∧
    derive_tag_weights [(exTagX, 0.80)] = [(exTagX, 1.3)] ∧
    derive_tag_weights [(exTagX, 0.79)] = [(exTagX, 1.1)] ∧
    derive_tag_weights [(exTagX, 0.20)] = [(exTagX, 0.9)] ∧
    derive_tag_weights [(exTagX, 0.19)] = [(exTagX, 0.5)] ∧
    ∀ (rates : List (List Char × ℚ)) (p : List Char × ℚ),
      p ∈ derive_tag_weights rates →
        p.2 = 1.3 ∨ p.2 = 1.1 ∨ p.2 = 0.9 ∨ p.2 = 0.5 := by
  have hfun : ∀ p : List Char × ℚ,
      (if p.2 ≥ (learningRule strongBoostKey).1 then (p.1, (learningRule strongBoostKey).2)
        else if p.2 ≥ (learningRule mildBoostKey).1 then (p.1, (learningRule mildBoostKey).2)
        else if p.2 ≥ (learningRule mildPenaltyKey).1 then (p.1, (learningRule mildPenaltyKey).2)
        else (p.1, (learningRule strongPenaltyKey).2)) =
      (p.1, if p.2 ≥ 0.80 then (1.3 : ℚ) else if p.2 ≥ 0.50 then 1.1
        else if p.2 ≥ 0.20 then 0.9 else 0.5) := by
    intro p
    rw [learningRule_strong_boost, learningRule_mild_boost, learningRule_mild_penalty,
      learningRule_strong_penalty]
    split_ifs <;> rfl
  have hmap : ∀ rates : List (List Char × ℚ),
      derive_tag_weights rates = rates.map (fun p =>
        (p.1, if p.2 ≥ 0.80 then (1.3 : ℚ) else if p.2 ≥ 0.50 then 1.1
          else if p.2 ≥ 0.20 then 0.9 else 0.5)) := by
    intro rates
    unfold derive_tag_weights
    exact List.map_congr_left (fun p _ => hfun p)
  refine ⟨hmap, ?_, ?_, ?_, ?_, ?_⟩
  · rw [hmap]
    norm_num
  · rw [hmap]
    norm_num
  · rw [hmap]
    norm_num
  · rw [hmap]
    norm_num
  · intro rates p hp
    rw [hmap] at hp
    rcases List.mem_map.mp hp with ⟨q, _, hpe⟩
    subst hpe
    simp only []
    split_ifs <;> simp

/-- Witness for claim C2 at a concrete rate mapping. -/
theorem claim_C2_witness :
    (exTagApi, (1.1:ℚ)).2 = 1.3 ∨ (exTagApi, (1.1:ℚ)).2 = 1.1 ∨
      (exTagApi, (1.1:ℚ)).2 = 0.9 ∨ (exTagApi, (1.1:ℚ)).2 = 0.5 :=
  claim_C2_weight_tiers.2.2.2.2.2 [(exTagApi, 0.6)] (exTagApi, 1.1) (by
    rw [claim_C2_weight_tiers.1]
    norm_num)

/-- Claim C3: the position scorer follows the zone priority order with
case-insensitive substring matching: a tag occurring verbatim in the first
line always scores 1.0 whatever the other zones contain; a tag absent from
the raw text as a case-insensitive substring scores 0.0; every result is one
of the five configured zone scores. -/
theorem claim_C3_position_zones (tag raw : List Char) :
    (tag <:+: (pySplit '\n' raw).headI → calculate_position_score tag raw = 1) ∧
    (¬ pyLower tag <:+: pyLower raw → calculate_position_score tag raw = 0) ∧
    (calculate_position_score tag raw = 1 ∨ calculate_position_score tag raw = 0.8 ∨
      calculate_position_score tag raw = 0.6 ∨ calculate_position_score tag raw = 0.4 ∨
      calculate_position_score tag raw = 0) :=
  ⟨calculate_position_score_title tag raw, calculate_position_score_absent tag raw,
    calculate_position_score_cases tag raw⟩

/-- Witness for claim C3: a tag in the first line scores 1.0, an absent tag
scores 0.0. -/
theorem claim_C3_witness :
    calculate_position_score exTagApi exTitleRaw = 1 ∧
      calculate_position_score exTagZz exOtherRaw = 0 :=
  ⟨(claim_C3_position_zones exTagApi exTitleRaw).1 (by decide),
    (claim_C3_position_zones exTagZz exOtherRaw).2.1 (by decide)⟩

/-- Claim C4: the frequency scorer returns 0 exactly on zero occurrences and
min(1, ln(count + 1)/ln 10) otherwise; it stays in the unit interval, is
monotone in the occurrence count, and saturates at 1 from 9 occurrences on. -/
theorem claim_C4_frequency_curve (tag text : List Char) :
    (calculate_frequency_score tag text = 0 ↔ pyCount (pyLower tag) text = 0) ∧
    (0 ≤ calculate_frequency_score tag text ∧ calculate_frequency_score tag text ≤ 1) ∧
    (pyCount (pyLower tag) text ≠ 0 →
      calculate_frequency_score tag text =
        min 1 (Real.log (pyCount (pyLower tag) text + 1) / Real.log 10)) ∧
    (9 ≤ pyCount (pyLower tag) text → calculate_frequency_score tag text = 1) ∧
    ∀ text2 : List Char, pyCount (pyLower tag) text ≤ pyCount (pyLower tag) text2 →
      calculate_frequency_score tag text ≤ calculate_frequency_score tag text2 := by
  refine ⟨freqOfCount_eq_zero_iff _, ⟨freqOfCount_nonneg _, freqOfCount_le_one _⟩,
    ?_, freqOfCount_saturates _, ?_⟩
  · intro h
    unfold calculate_frequency_score freqOfCount
    rw [if_neg h]
  · intro text2 h
    exact freqOfCount_mono h

/-- Witness for claim C4: zero score on empty text, saturation at nine
occurrences. -/
theorem claim_C4_witness :
    calculate_frequency_score exTagA [] = 0 ∧
      calculate_frequency_score exTagA exCountText = 1 :=
  ⟨(claim_C4_frequency_curve exTagA []).1.mpr (by decide),
    (claim_C4_frequency_curve exTagA exCountText).2.2.2.1 (by decide)⟩

/-- Claim C5: compute_tag_stats aggregates by lowered tag (each key appears
once, and every record contributes to the entry of its lowered tag, so
mixed-case tags merge), every emitted entry covers at least one record and
carries rate approved/(approved+rejected), and the empty collection gives the
empty mapping, as does derive_tag_weights on an empty rate mapping. -/
theorem claim_C5_aggregation :
    compute_tag_stats [] = [] ∧
    derive_tag_weights [] = [] ∧
    ∀ fb : List FBItem,
      ((compute_tag_stats fb).map Prod.fst).Nodup ∧
      (∀ f ∈ flatRecs fb, pyLower f.tag ∈ (compute_tag_stats fb).map Prod.fst) ∧
      ∀ t r, (t, r) ∈ compute_tag_stats fb →
        0 < countTagged (flatRecs fb) t ∧
        r = (countApproved (flatRecs fb) t : ℚ) / (countTagged (flatRecs fb) t : ℚ) := by
  refine ⟨rfl, rfl, ?_⟩
  intro fb
  have hkeys : (compute_tag_stats fb).map Prod.fst =
      (statsOfRecords (flatRecs fb) []).map Prod.fst := by
    rw [compute_tag_stats_eq]
    simp [List.map_map, Function.comp]
  have hnodup : ((statsOfRecords (flatRecs fb) []).map Prod.fst).Nodup :=
    keys_nodup_statsOfRecords _ [] (by simp)
  refine ⟨by rw [hkeys]; exact hnodup, ?_, ?_⟩
  · intro f hf
    rw [hkeys, mem_keys_statsOfRecords]
    exact Or.inr ⟨f, hf, rfl⟩
  · intro t r hmem
    rw [compute_tag_stats_eq] at hmem
    rcases List.mem_map.mp hmem with ⟨e, he, hpe⟩
    have hkey : e.1 = t := congrArg Prod.fst hpe
    have hval : rateOfCounts e.2 = r := congrArg Prod.snd hpe
    subst hkey
    have hlook : statLookup (statsOfRecords (flatRecs fb) []) e.1 = e.2 :=
      statLookup_of_mem _ hnodup e he
    rw [statLookup_statsOfRecords, statLookup_nil] at hlook
    simp only [Nat.zero_add] at hlook
    have hmemkey : e.1 ∈ (statsOfRecords (flatRecs fb) []).map Prod.fst :=
      List.mem_map_of_mem Prod.fst he
    rw [mem_keys_statsOfRecords] at hmemkey
    have hex : ∃ f ∈ flatRecs fb, pyLower f.tag = e.1 := by
      rcases hmemkey with h0 | hex
      · simp at h0
      · exact hex
    have hpos : 0 < countTagged (flatRecs fb) e.1 := (countTagged_pos_iff _ _).mpr hex
    refine ⟨hpos, ?_⟩
    rw [← hval, ← hlook]
    unfold rateOfCounts
    simp only []
    rw [countTagged_eq_approved_add_rejected] at hpos
    rw [if_pos hpos, countTagged_eq_approved_add_rejected]
    push_cast
    rfl

/-- Witness for claim C5 at a concrete one-record collection. -/
theorem claim_C5_witness :
    0 < countTagged (flatRecs fbSmall) exTagApi ∧
      rateOfCounts (1, 0) =
        (countApproved (flatRecs fbSmall) exTagApi : ℚ) /
          (countTagged (flatRecs fbSmall) exTagApi : ℚ) := by
  have hmem : (exTagApi, rateOfCounts (1, 0)) ∈ compute_tag_stats fbSmall := by
    rw [show compute_tag_stats fbSmall = [(exTagApi, rateOfCounts (1, 0))] from rfl]
    exact List.mem_singleton.mpr rfl
  exact (claim_C5_aggregation.2.2 fbSmall).2.2 exTagApi (rateOfCounts (1, 0)) hmem

/-- Claim C6 (amended): for a nonempty tag, evaluating with missing document
text (both texts empty) yields zero frequency and position signals, the
combined score is 0.5 · importance, the tag is approved exactly when the
importance score reaches 0.70, and the stored score is the rounded half
importance; the evaluation is a total function, so absent text never raises.
The original claim fails at the empty tag, which matches every zone. -/
theorem claim_C6_missing_text (tag : List Char) (imp : ℝ) (h : tag ≠ []) :
    calculate_frequency_score tag [] = 0 ∧
    calculate_position_score tag [] = 0 ∧
    (simulate_feedback_step tag imp [] []).status =
      (if imp ≥ 0.70 then "approved" else "rejected") ∧
    (simulate_feedback_step tag imp [] []).relevance_score = roundPy (0.5 * imp) 4 := by
  have hf := calculate_frequency_score_nil tag h
  have hp := calculate_position_score_nil tag h
  have hc : TFIDF_WEIGHT * imp + FREQUENCY_WEIGHT * calculate_frequency_score tag [] +
      POSITION_WEIGHT * ((calculate_position_score tag [] : ℚ) : ℝ) = 0.5 * imp := by
    rw [hf, hp]
    unfold TFIDF_WEIGHT FREQUENCY_WEIGHT POSITION_WEIGHT
    push_cast
    ring
  refine ⟨hf, hp, ?_, ?_⟩
  · simp only [simulate_feedback_step, hc]
    have hiff : (0.5 * imp ≥ APPROVAL_THRESHOLD) ↔ (imp ≥ 0.70) := by
      unfold APPROVAL_THRESHOLD
      constructor <;> intro <;> linarith
    rw [if_congr hiff rfl rfl]
  · simp only [simulate_feedback_step, hc]

/-- Counterexample to claim C6 as stated: at the empty tag with importance 0
the evaluator approves (the empty string matches the title zone and is
counted once even in empty text), although 0 < 0.70. -/
theorem claim_C6_counterexample :
    (simulate_feedback_step [] 0 [] []).status = "approved" ∧ ¬ ((0:ℝ) ≥ 0.70) := by
  constructor
  · have hcount : pyCount (pyLower []) [] = 1 := by decide
    have hfreq : calculate_frequency_score [] [] = min 1 (Real.log 2 / Real.log 10) := by
      unfold calculate_frequency_score
      rw [hcount]
      unfold freqOfCount
      norm_num
    have hpos : calculate_position_score [] [] = 1 :=
      calculate_position_score_title [] [] List.nil_infix
    have hlog : Real.log 10 ≤ 4 * Real.log 2 := by
      have h16 : Real.log 16 = 4 * Real.log 2 := by
        rw [show (16:ℝ) = 2 ^ 4 by norm_num, Real.log_pow]
        norm_num
      rw [← h16]
      exact Real.log_le_log (by norm_num) (by norm_num)
    have hpos10 : (0:ℝ) < Real.log 10 := Real.log_pos (by norm_num)
    have hmin : (1:ℝ)/4 ≤ min 1 (Real.log 2 / Real.log 10) := by
      refine le_min (by norm_num) ?_
      rw [le_div_iff₀ hpos10]
      linarith
    simp only [simulate_feedback_step, hfreq, hpos]
    rw [if_pos ?hge]
    case hge =>
      unfold TFIDF_WEIGHT FREQUENCY_WEIGHT POSITION_WEIGHT APPROVAL_THRESHOLD
      push_cast
      linarith
  · norm_num

/-- Witness for the amended claim C6. -/
theorem claim_C6_witness :
    calculate_frequency_score exTagX [] = 0 ∧
      (simulate_feedback_step exTagX 0.8 [] []).status = "approved" := by
  have h := claim_C6_missing_text exTagX 0.8 (by decide)
  refine ⟨h.1, ?_⟩
  rw [h.2.2.1]
  norm_num

/-- Claim C7 (amended): compute_tag_stats does not skip malformed records:
whenever any record of the collection is missing its tag or status field, the
whole aggregation raises KeyError (modelled as an error result), so a single
bad record invalidates the entire batch. -/
theorem claim_C7_malformed_aborts (fb : List RawFBItem)
    (h : ∃ item ∈ fb, ∃ f ∈ item.feedback,
      f.tagField = none ∨ f.statusField = none) :
    compute_tag_stats_checked fb = Except.error () := by
  unfold compute_tag_stats_checked
  rw [items_foldlM_error fb [] h]
  rfl

/-- Counterexample to claim C7 as stated: a collection holding one
well-formed and one malformed record aborts with an error instead of
returning the mapping the well-formed records alone would give. -/
theorem claim_C7_counterexample :
    compute_tag_stats_checked fbWithMalformed = Except.error () ∧
      compute_tag_stats_checked fbWellFormedOnly =
        Except.ok (compute_tag_stats fbSmall) :=
  ⟨rfl, rfl⟩

/-- Witness for the amended claim C7. -/
theorem claim_C7_witness :
    compute_tag_stats_checked fbMissingStatus = Except.error () :=
  claim_C7_malformed_aborts fbMissingStatus (by decide)

/-- Claim C8 (amended): the occurrence count used by score_frequency is a
substring count with partial-word matches (positive exactly when the lowered
tag occurs as a substring of the text) but non-overlapping, as Python
str.count is: the count of "aa" in "aaa" is 1, not 2, and the counted
matches consume disjoint blocks of text. -/
theorem claim_C8_substring_count :
    pyCount (pyLower exTagAa) exTextAaa = 1 ∧
    (∀ tag text : List Char, pyLower tag ≠ [] →
      (0 < pyCount (pyLower tag) text ↔ pyLower tag <:+: text)) ∧
    ∀ tag text : List Char, pyLower tag ≠ [] →
      pyCount (pyLower tag) text * (pyLower tag).length ≤ text.length := by
  refine ⟨by decide, ?_, ?_⟩
  · intro tag text h
    exact pyCount_pos_iff _ _ h
  · intro tag text h
    exact pyCount_mul_length_le _ _ h

/-- Counterexample to claim C8 as stated: the count of "aa" in "aaa" is not
the overlapping count 2. -/
theorem claim_C8_counterexample :
    ¬ pyCount (pyLower exTagAa) exTextAaa = 2 := by decide

/-- Witness for the amended claim C8. -/
theorem claim_C8_witness :
    (0 < pyCount (pyLower exTagAb) exTextCab ↔ pyLower exTagAb <:+: exTextCab) ∧
      pyCount (pyLower exTagAa) exTextAaa * (pyLower exTagAa).length ≤
        exTextAaa.length :=
  ⟨claim_C8_substring_count.2.1 exTagAb exTextCab (by decide),
    claim_C8_substring_count.2.2 exTagAa exTextAaa (by decide)⟩

/-- Claim C9: with an importance score in the unit interval, the stored
relevance score (the 0.5/0.2/0.3-weighted sum of bounded sub-scores, then
rounded) lies in the unit interval as well. -/
theorem claim_C9_relevance_bounded (tag : List Char) (imp : ℝ)
    (raw cleaned : List Char) (h0 : 0 ≤ imp) (h1 : imp ≤ 1) :
    0 ≤ (simulate_feedback_step tag imp raw cleaned).relevance_score ∧
      (simulate_feedback_step tag imp raw cleaned).relevance_score ≤ 1 := by
  have hcf : calculate_frequency_score tag cleaned =
      freqOfCount (pyCount (pyLower tag) cleaned) := rfl
  have hf0 := freqOfCount_nonneg (pyCount (pyLower tag) cleaned)
  have hf1 := freqOfCount_le_one (pyCount (pyLower tag) cleaned)
  have hpq := calculate_position_score_bounds tag raw
  have hp0 : (0:ℝ) ≤ ((calculate_position_score tag raw : ℚ) : ℝ) := by
    exact_mod_cast hpq.1
  have hp1 : ((calculate_position_score tag raw : ℚ) : ℝ) ≤ 1 := by
    exact_mod_cast hpq.2
  have hcomb0 : 0 ≤ TFIDF_WEIGHT * imp +
      FREQUENCY_WEIGHT * calculate_frequency_score tag cleaned +
      POSITION_WEIGHT * ((calculate_position_score tag raw : ℚ) : ℝ) := by
    rw [hcf]
    unfold TFIDF_WEIGHT FREQUENCY_WEIGHT POSITION_WEIGHT
    linarith
  have hcomb1 : TFIDF_WEIGHT * imp +
      FREQUENCY_WEIGHT * calculate_frequency_score tag cleaned +
      POSITION_WEIGHT * ((calculate_position_score tag raw : ℚ) : ℝ) ≤ 1 := by
    rw [hcf]
    unfold TFIDF_WEIGHT FREQUENCY_WEIGHT POSITION_WEIGHT
    linarith
  have hb := roundPy_bounds _ hcomb0 hcomb1
  exact hb

/-- Witness for claim C9 at a concrete input. -/
theorem claim_C9_witness :
    0 ≤ (simulate_feedback_step exTagApi (1/2) [] []).relevance_score ∧
      (simulate_feedback_step exTagApi (1/2) [] []).relevance_score ≤ 1 :=
  claim_C9_relevance_bounded exTagApi (1/2) [] [] (by norm_num) (by norm_num)

/-- Claim C10: approval uses the unrounded combined score while the stored
relevance score is rounded to four decimals, so with importance 0.69998 and
no matching text the combined score 0.34999 is rejected while the stored
relevance score is 0.35, at or above the approval threshold. -/
theorem claim_C10_rounding_vs_threshold :
    (simulate_feedback_step exTagX 0.69998 [] []).status = "rejected" ∧
    (simulate_feedback_step exTagX 0.69998 [] []).relevance_score = 0.35 ∧
    APPROVAL_THRESHOLD ≤ (simulate_feedback_step exTagX 0.69998 [] []).relevance_score := by
  have hx : exTagX ≠ [] := by decide
  have hfreq := calculate_frequency_score_nil exTagX hx
  have hpos := calculate_position_score_nil exTagX hx
  have hcomb : TFIDF_WEIGHT * (0.69998:ℝ) +
      FREQUENCY_WEIGHT * calculate_frequency_score exTagX [] +
      POSITION_WEIGHT * ((calculate_position_score exTagX [] : ℚ) : ℝ) = 0.34999 := by
    rw [hfreq, hpos]
    unfold TFIDF_WEIGHT FREQUENCY_WEIGHT POSITION_WEIGHT
    push_cast
    norm_num
  have hstat : (simulate_feedback_step exTagX 0.69998 [] []).status = "rejected" := by
    simp only [simulate_feedback_step, hcomb]
    rw [if_neg ?hlt]
    case hlt =>
      unfold APPROVAL_THRESHOLD
      norm_num
  have hrel : (simulate_feedback_step exTagX 0.69998 [] []).relevance_score = 0.35 := by
    simp only [simulate_feedback_step, hcomb]
    unfold roundPy
    rw [round_eq]
    norm_num
  refine ⟨hstat, hrel, ?_⟩
  rw [hrel]
  unfold APPROVAL_THRESHOLD
  norm_num

end TextTagger
